import Mathlib

/-!
Verification of the confirmation-matching pipeline.

This file is a shallow embedding of the repository's two core modules:

* `update_validation_status.py` — the normalizers `_normalize` and
  `_normalize_buy_sell`, and the validation pass `update_validation_statuses`;
* `confirmation_parser.py` — the guard `_has_value`, the extraction wrapper
  `_extract_column_value`, and the record processor `process_new_raw_rows`.

Modelling choices:

* Scalars stored in table columns (and scalars inside a parsed JSON object)
  are modelled by `Val`: SQL `NULL` / Python `None` is `Val.vnull`, text is
  `Val.vstr`, numeric values are `Val.vint` (a stable textual representation;
  the claims do not depend on float formatting).
* Python's `str.strip()` and `str.lower()` are modelled character-wise over
  `String.data` (ASCII whitespace and ASCII case, which is what the
  repository's data uses).
* A row of `confirmation_data` is the structure `Record`, with the exact 18
  value columns of `create_confirmation_table.py` (the `id` key is modelled
  by list position — ids are unique, so positional update is equivalent;
  `creation_date` is never read by the core).
* The external language-model service is a parameter: an `Oracle` gives, for
  each record position and field, the body of the service response.  A
  response is either a transport failure (`ollama.chat` raises), a non-JSON
  body (`json.loads` raises `JSONDecodeError`), a JSON body that is not an
  object (`dict.get` raises `AttributeError`), or a flat JSON object with
  scalar fields.  Exceptions are modelled with `Except`; a run that raises
  leaves the database unchanged (`conn.close()` without `commit` rolls the
  transaction back), which `runStore` captures.
-/

namespace Confirm

/-- A scalar as stored in a table column or appearing in a parsed JSON
object: `NULL`/`None`, text, or a numeric value. -/
inductive Val where
  | vnull
  | vstr (s : String)
  | vint (n : Int)
deriving DecidableEq, Repr

deriving instance DecidableEq for Except

/-- Python `str(value)` on a scalar. -/
def valStr : Val → String
  | Val.vnull => "None"
  | Val.vstr s => s
  | Val.vint n => toString n

/-- The characters Python's `str.strip()` removes (ASCII whitespace). -/
def pySpace (c : Char) : Bool :=
  c == ' ' || c == '\t' || c == '\n' || c == '\r'

/-- `str.strip()` on the character list: drop leading, then trailing,
whitespace. -/
def stripList (l : List Char) : List Char :=
  (l.dropWhile pySpace).rdropWhile pySpace

/-- Python `str.strip()`. -/
def pyStrip (s : String) : String := String.mk (stripList s.data)

/-- Python `str.lower()` on one ASCII character. -/
def pyLowerChar (c : Char) : Char :=
  if 65 ≤ c.toNat ∧ c.toNat ≤ 90 then Char.ofNat (c.toNat + 32) else c

/-- Python `str.lower()`. -/
def pyLower (s : String) : String := String.mk (s.data.map pyLowerChar)

/-! ## `update_validation_status.py` -/

/-- `_normalize` (update_validation_status.py lines 9-15): `None` stays
`None`; both the numeric branch and the generic branch are
`str(value).strip()`. -/
def _normalize : Val → Option String
  | Val.vnull => none
  | Val.vstr s => some (pyStrip s)
  | Val.vint n => some (pyStrip (toString n))

/-- `buy_tokens` (update_validation_status.py line 27). -/
def buy_tokens : List String := ["buy", "b", "purchase", "long"]

/-- `sell_tokens` (update_validation_status.py line 28). -/
def sell_tokens : List String := ["sell", "s", "short", "dispose"]

/-- The token classification step of `_normalize_buy_sell`: the empty check,
the two synonym sets, and the pass-through. -/
def nbsToken (token : String) : Option String :=
  if token = "" then none
  else if token ∈ buy_tokens then some "buy"
  else if token ∈ sell_tokens then some "sell"
  else some token

/-- `_normalize_buy_sell` (update_validation_status.py lines 18-34):
`None` stays `None`; otherwise classify `str(value).strip().lower()`. -/
def _normalize_buy_sell : Val → Option String
  | Val.vnull => none
  | v => nbsToken (pyLower (pyStrip (valStr v)))

/-- The six field triples of the `pairs` list in
`update_validation_statuses`. -/
inductive Field where
  | currency
  | settlement_amount
  | buy_sell
  | isin
  | settlement_date
  | SSI
deriving DecidableEq, Repr

/-- One row of `confirmation_data` (create_confirmation_table.py): a source
column, an extraction column and a validation column for each of the six
fields. -/
structure Record where
  currency : Val := Val.vnull
  currency_LLM : Val := Val.vnull
  currency_validation : Val := Val.vnull
  settlement_amount : Val := Val.vnull
  settlement_amount_LLM : Val := Val.vnull
  settlement_amount_validation : Val := Val.vnull
  buy_sell : Val := Val.vnull
  buy_sell_LLM : Val := Val.vnull
  buy_sell_validation : Val := Val.vnull
  isin : Val := Val.vnull
  isin_LLM : Val := Val.vnull
  isin_validation : Val := Val.vnull
  settlement_date : Val := Val.vnull
  settlement_date_LLM : Val := Val.vnull
  settlement_date_validation : Val := Val.vnull
  SSI : Val := Val.vnull
  SSI_LLM : Val := Val.vnull
  SSI_validation : Val := Val.vnull
deriving DecidableEq, Repr

/-- The source column of a field. -/
def sourceVal (r : Record) : Field → Val
  | Field.currency => r.currency
  | Field.settlement_amount => r.settlement_amount
  | Field.buy_sell => r.buy_sell
  | Field.isin => r.isin
  | Field.settlement_date => r.settlement_date
  | Field.SSI => r.SSI

/-- The `_LLM` (extraction) column of a field. -/
def llmVal (r : Record) : Field → Val
  | Field.currency => r.currency_LLM
  | Field.settlement_amount => r.settlement_amount_LLM
  | Field.buy_sell => r.buy_sell_LLM
  | Field.isin => r.isin_LLM
  | Field.settlement_date => r.settlement_date_LLM
  | Field.SSI => r.SSI_LLM

/-- The `_validation` column of a field. -/
def validVal (r : Record) : Field → Val
  | Field.currency => r.currency_validation
  | Field.settlement_amount => r.settlement_amount_validation
  | Field.buy_sell => r.buy_sell_validation
  | Field.isin => r.isin_validation
  | Field.settlement_date => r.settlement_date_validation
  | Field.SSI => r.SSI_validation

/-- `UPDATE confirmation_data SET {llm_column} = ? WHERE id = ?`
(`_update_llm_column`). -/
def setLlm (r : Record) : Field → Val → Record
  | Field.currency, v => { r with currency_LLM := v }
  | Field.settlement_amount, v => { r with settlement_amount_LLM := v }
  | Field.buy_sell, v => { r with buy_sell_LLM := v }
  | Field.isin, v => { r with isin_LLM := v }
  | Field.settlement_date, v => { r with settlement_date_LLM := v }
  | Field.SSI, v => { r with SSI_LLM := v }

/-- Writing an `Option String` back into a column: Python `None` becomes SQL
`NULL`. -/
def optVal : Option String → Val
  | none => Val.vnull
  | some s => Val.vstr s

/-- `"matched" if (left is not None and right is not None and left == right)
else "unmatched"` (update_validation_status.py line 75). -/
def mkStatus (left right : Option String) : Val :=
  if left ≠ none ∧ right ≠ none ∧ left = right then Val.vstr "matched"
  else Val.vstr "unmatched"

/-- The normalizer the pairs loop chooses for a field:
`if source_col == "buy_sell"` use `_normalize_buy_sell`, else `_normalize`. -/
def normField (f : Field) (v : Val) : Option String :=
  if f = Field.buy_sell then _normalize_buy_sell v else _normalize v

/-- First phase of `update_validation_statuses` (lines 52-59): overwrite
`buy_sell_LLM` with `_normalize_buy_sell(buy_sell_LLM)` for every row. -/
def normalizeBuySellPhase (r : Record) : Record :=
  { r with buy_sell_LLM := optVal (_normalize_buy_sell r.buy_sell_LLM) }

/-- Second phase of `update_validation_statuses` (lines 61-79): for every
pair, recompute the validation column from the current source and `_LLM`
columns.  The loop is column-major over independent per-row updates, so the
per-record composition is equivalent. -/
def computeStatuses (r : Record) : Record :=
  { r with
    currency_validation :=
      mkStatus (_normalize r.currency) (_normalize r.currency_LLM)
    settlement_amount_validation :=
      mkStatus (_normalize r.settlement_amount) (_normalize r.settlement_amount_LLM)
    buy_sell_validation :=
      mkStatus (_normalize_buy_sell r.buy_sell) (_normalize_buy_sell r.buy_sell_LLM)
    isin_validation :=
      mkStatus (_normalize r.isin) (_normalize r.isin_LLM)
    settlement_date_validation :=
      mkStatus (_normalize r.settlement_date) (_normalize r.settlement_date_LLM)
    SSI_validation :=
      mkStatus (_normalize r.SSI) (_normalize r.SSI_LLM) }

/-- The effect of `update_validation_statuses` on one record. -/
def validateRecord (r : Record) : Record :=
  computeStatuses (normalizeBuySellPhase r)

/-- `update_validation_statuses` (update_validation_status.py lines 37-84):
the buy/sell normalization phase over all rows, then the pairs loop. -/
def update_validation_statuses (store : List Record) : List Record :=
  (store.map normalizeBuySellPhase).map computeStatuses

/-! ## `confirmation_parser.py` -/

/-- `_has_value` (confirmation_parser.py lines 13-18). -/
def _has_value : Val → Bool
  | Val.vnull => false
  | Val.vstr s => !(pyStrip s == "")
  | Val.vint _ => true

/-- An exception escaping `_extract_column_value`. -/
inductive ExtractErr where
  | transportError
  | jsonDecodeError
  | attributeError
deriving DecidableEq, Repr

/-- The body of one service response, as seen by `_extract_column_value`:
the call itself may fail; otherwise `json.loads` may fail; otherwise the
parsed JSON may not be an object (`.get` raises); otherwise it is a (flat)
JSON object with scalar fields. -/
inductive Resp where
  | transportFail
  | notJson
  | nonObjJson
  | obj (fields : List (String × Val))
deriving DecidableEq, Repr

/-- `_extract_column_value` (confirmation_parser.py lines 21-38), given the
response the service produced for this call.  `parsed.get(output_key)`
returns `None` when the key is missing, hence `.getD Val.vnull`. -/
def _extract_column_value : Resp → String → Except ExtractErr Val
  | Resp.transportFail, _ => Except.error ExtractErr.transportError
  | Resp.notJson, _ => Except.error ExtractErr.jsonDecodeError
  | Resp.nonObjJson, _ => Except.error ExtractErr.attributeError
  | Resp.obj fields, key => Except.ok ((List.lookup key fields).getD Val.vnull)

/-- `metadata.output_key` for each field (llm_metadata.py). -/
def outputKey : Field → String
  | Field.currency => "currency"
  | Field.settlement_amount => "settlement_amount"
  | Field.buy_sell => "buy_sell"
  | Field.isin => "isin"
  | Field.settlement_date => "settlement_date"
  | Field.SSI => "SSI"

/-- Iteration order of `FIELD_LLM_METADATA.values()` (dict insertion
order). -/
def fieldOrder : List Field :=
  [Field.currency, Field.settlement_amount, Field.buy_sell,
   Field.isin, Field.settlement_date, Field.SSI]

/-- The external service: response body per record position and field. -/
abbrev Oracle := Nat → Field → Resp

/-- The inner field loop of `process_new_raw_rows` for one row (lines
77-92): skip when the source is absent or the `_LLM` column already has a
value, otherwise call the service and write the parsed value.  Each field
occurs once in the list, so threading the record equals reading the
pre-fetched row snapshot. -/
def processFields (g : Field → Resp) : Record → List Field → Except ExtractErr (Record × Nat)
  | r, [] => Except.ok (r, 0)
  | r, f :: fs =>
    if !_has_value (sourceVal r f) || _has_value (llmVal r f) then
      processFields g r fs
    else
      match _extract_column_value (g f) (outputKey f) with
      | Except.error e => Except.error e
      | Except.ok v =>
        match processFields g (setLlm r f v) fs with
        | Except.error e => Except.error e
        | Except.ok (r2, n) => Except.ok (r2, n + 1)

/-- The outer row loop of `process_new_raw_rows`. -/
def processRecords (o : Oracle) : Nat → List Record → Except ExtractErr (List Record × Nat)
  | _, [] => Except.ok ([], 0)
  | i, r :: rs =>
    match processFields (o i) r fieldOrder with
    | Except.error e => Except.error e
    | Except.ok (r2, n) =>
      match processRecords o (i + 1) rs with
      | Except.error e => Except.error e
      | Except.ok (rs2, m) => Except.ok (r2 :: rs2, n + m)

/-- `process_new_raw_rows` (confirmation_parser.py lines 68-97).  An
`Except.error` is an exception escaping the `try` block: the function
neither returns a count nor commits. -/
def process_new_raw_rows (o : Oracle) (store : List Record) : Except ExtractErr (List Record × Nat) :=
  processRecords o 0 store

/-- The database contents after a run of `process_new_raw_rows`: on success
the updates are committed; on an exception `conn.close()` without `commit`
rolls every update of the run back. -/
def runStore (o : Oracle) (store : List Record) : List Record :=
  match process_new_raw_rows o store with
  | Except.ok (s, _) => s
  | Except.error _ => store

/-! ## Sample data -/

/-- A row with every column `NULL`. -/
def rBlank : Record := {}

/-- A row whose currency source and extraction agree. -/
def rUSD : Record := { currency := Val.vstr "USD", currency_LLM := Val.vstr "USD" }

/-- A row holding a non-normalized buy/sell extraction. -/
def rBuyUpper : Record := { buy_sell_LLM := Val.vstr "BUY" }

/-- A row with two present sources and no extractions. -/
def rTwoSrc : Record :=
  { currency := Val.vstr "confirmation text", settlement_amount := Val.vint 5 }

/-- A row whose currency extraction column holds a non-null blank string. -/
def rBlankLLM : Record := { currency := Val.vstr "x", currency_LLM := Val.vstr " " }

/-- A service that answers every call with a semantic null. -/
def oNullAnswer : Oracle := fun _ _ => Resp.obj [("currency", Val.vnull)]

/-- A service that answers the currency call and returns a non-JSON body for
every other field. -/
def oCurrencyOnly : Oracle := fun _ f =>
  match f with
  | Field.currency => Resp.obj [("currency", Val.vstr "USD")]
  | _ => Resp.notJson

/-- A service whose every answer is the string "X" under the right key. -/
def oGood : Oracle := fun _ f => Resp.obj [(outputKey f, Val.vstr "X")]

/-- A service that always fails with a non-JSON body. -/
def oAllFail : Oracle := fun _ _ => Resp.notJson

/-- A service answering "y" to every currency call. -/
def oY : Oracle := fun _ _ => Resp.obj [("currency", Val.vstr "y")]

example : _normalize (Val.vstr " a ") = some "a" := by decide
example : _normalize_buy_sell (Val.vstr " BUY ") = some "buy" := by decide
example : _normalize_buy_sell (Val.vstr "  ") = none := by decide
example : _has_value (Val.vstr " ") = false := by decide
example : update_validation_statuses [rUSD] =
    [{ rUSD with currency_validation := Val.vstr "matched",
                 settlement_amount_validation := Val.vstr "unmatched",
                 buy_sell_validation := Val.vstr "unmatched",
                 isin_validation := Val.vstr "unmatched",
                 settlement_date_validation := Val.vstr "unmatched",
                 SSI_validation := Val.vstr "unmatched" }] := by decide
example : process_new_raw_rows oNullAnswer [rUSD] = Except.ok ([rUSD], 0) := by decide
example : process_new_raw_rows oGood [rTwoSrc] =
    Except.ok ([{ rTwoSrc with currency_LLM := Val.vstr "X",
                               settlement_amount_LLM := Val.vstr "X" }], 2) := by decide

/-! ## Normalization lemmas -/

/-- The list `m.rdropWhile p` keeps the head of `m`, so if `m` has no leading
match it still has none after dropping from the right. -/
theorem dropWhile_fix_head (p : Char → Bool) (m : List Char)
    (hm : m.dropWhile p = m) :
    (m.rdropWhile p).dropWhile p = m.rdropWhile p := by
  rcases h : m.rdropWhile p with _ | ⟨a, t⟩
  · rfl
  · obtain ⟨u, hu⟩ := List.rdropWhile_prefix p m
    rw [h] at hu
    have hpa : ¬ p a = true := by
      intro hp
      rw [← hu, List.cons_append, List.dropWhile_cons_of_pos hp] at hm
      have hlen := congrArg List.length hm
      have hle := ((t ++ u).dropWhile_sublist p).length_le
      simp only [List.length_cons] at hlen
      omega
    exact List.dropWhile_cons_of_neg hpa

/-- `stripList` output has no leading and no trailing whitespace. -/
theorem stripList_stripped (l : List Char) :
    (stripList l).dropWhile pySpace = stripList l
    ∧ (stripList l).rdropWhile pySpace = stripList l := by
  constructor
  · exact dropWhile_fix_head pySpace _ (List.dropWhile_idempotent pySpace l)
  · exact List.rdropWhile_idempotent pySpace _

/-- Stripping is idempotent. -/
theorem stripList_idem (l : List Char) : stripList (stripList l) = stripList l := by
  have h := stripList_stripped l
  show ((stripList l).dropWhile pySpace).rdropWhile pySpace = stripList l
  rw [h.1]
  exact h.2

/-- `Char.ofNat` of a valid code point converts back. -/
theorem toNat_ofNat_valid (n : Nat) (h : n.isValidChar) : (Char.ofNat n).toNat = n := by
  unfold Char.ofNat
  rw [dif_pos h]
  rfl

/-- Whitespace characters all sit below code point 33. -/
theorem pySpace_false_of_ge (c : Char) (h : 33 ≤ c.toNat) : pySpace c = false := by
  have h1 : c ≠ ' ' := fun e => by subst e; exact absurd h (by decide)
  have h2 : c ≠ '\t' := fun e => by subst e; exact absurd h (by decide)
  have h3 : c ≠ '\n' := fun e => by subst e; exact absurd h (by decide)
  have h4 : c ≠ '\r' := fun e => by subst e; exact absurd h (by decide)
  simp [pySpace, h1, h2, h3, h4]

/-- Lower-casing maps uppercase letters to code points 97-122. -/
theorem toNat_pyLowerChar_upper (c : Char) (h : 65 ≤ c.toNat ∧ c.toNat ≤ 90) :
    (pyLowerChar c).toNat = c.toNat + 32 := by
  unfold pyLowerChar
  rw [if_pos h]
  exact toNat_ofNat_valid _ (Or.inl (by omega))

/-- Lower-casing neither creates nor destroys whitespace. -/
theorem pySpace_pyLowerChar (c : Char) : pySpace (pyLowerChar c) = pySpace c := by
  by_cases h : 65 ≤ c.toNat ∧ c.toNat ≤ 90
  · have h1 : pySpace c = false := pySpace_false_of_ge c (by omega)
    have h2 : pySpace (pyLowerChar c) = false := by
      apply pySpace_false_of_ge
      rw [toNat_pyLowerChar_upper c h]
      omega
    rw [h1, h2]
  · have h1 : pyLowerChar c = c := if_neg h
    rw [h1]

/-- ASCII lower-casing is idempotent on characters. -/
theorem pyLowerChar_idem (c : Char) : pyLowerChar (pyLowerChar c) = pyLowerChar c := by
  by_cases h : 65 ≤ c.toNat ∧ c.toNat ≤ 90
  · have h1 : pyLowerChar c = Char.ofNat (c.toNat + 32) := if_pos h
    have ht : (pyLowerChar c).toNat = c.toNat + 32 := toNat_pyLowerChar_upper c h
    rw [h1] at ht ⊢
    show (if 65 ≤ (Char.ofNat (c.toNat + 32)).toNat ∧ (Char.ofNat (c.toNat + 32)).toNat ≤ 90
        then Char.ofNat ((Char.ofNat (c.toNat + 32)).toNat + 32) else Char.ofNat (c.toNat + 32))
      = Char.ofNat (c.toNat + 32)
    rw [ht, if_neg (by omega)]
  · have h1 : pyLowerChar c = c := if_neg h
    rw [h1, h1]

/-- ASCII lower-casing is idempotent on character lists. -/
theorem lowerList_idem (l : List Char) :
    (l.map pyLowerChar).map pyLowerChar = l.map pyLowerChar := by
  rw [List.map_map]
  exact List.map_congr_left fun c _ => pyLowerChar_idem c

/-- A list with no leading whitespace keeps that property under
lower-casing. -/
theorem dropWhile_map_lower (l : List Char) (h : l.dropWhile pySpace = l) :
    (l.map pyLowerChar).dropWhile pySpace = l.map pyLowerChar := by
  rw [List.dropWhile_map]
  have e : (pySpace ∘ pyLowerChar) = pySpace := funext pySpace_pyLowerChar
  rw [e, h]

/-- A list with no trailing whitespace keeps that property under
lower-casing. -/
theorem rdropWhile_map_lower (l : List Char) (h : l.rdropWhile pySpace = l) :
    (l.map pyLowerChar).rdropWhile pySpace = l.map pyLowerChar := by
  have h2 : l.reverse.dropWhile pySpace = l.reverse := by
    have := congrArg List.reverse h
    rwa [List.rdropWhile, List.reverse_reverse] at this
  have e : (pySpace ∘ pyLowerChar) = pySpace := funext pySpace_pyLowerChar
  show ((l.map pyLowerChar).reverse.dropWhile pySpace).reverse = l.map pyLowerChar
  rw [← List.map_reverse, List.dropWhile_map, e, h2, List.map_reverse, List.reverse_reverse]

/-- A stripped-and-lowered string is unchanged by another strip. -/
theorem pyStrip_pyLower_pyStrip (s : String) :
    pyStrip (pyLower (pyStrip s)) = pyLower (pyStrip s) := by
  show String.mk (stripList ((stripList s.data).map pyLowerChar))
    = String.mk ((stripList s.data).map pyLowerChar)
  have h := stripList_stripped s.data
  have h1 := dropWhile_map_lower _ h.1
  have h2 := rdropWhile_map_lower _ h.2
  show String.mk ((((stripList s.data).map pyLowerChar).dropWhile pySpace).rdropWhile pySpace)
    = String.mk ((stripList s.data).map pyLowerChar)
  rw [h1, h2]

/-- A stripped-and-lowered string is a fixed point of strip-then-lower. -/
theorem token_stable (s : String) :
    pyLower (pyStrip (pyLower (pyStrip s))) = pyLower (pyStrip s) := by
  rw [pyStrip_pyLower_pyStrip]
  show String.mk (((stripList s.data).map pyLowerChar).map pyLowerChar)
    = String.mk ((stripList s.data).map pyLowerChar)
  rw [lowerList_idem]

/-- Re-normalizing the stored output of `_normalize_buy_sell` (written back
into the column through `optVal`) returns the stored output unchanged. -/
theorem nbs_fix (v : Val) :
    _normalize_buy_sell (optVal (_normalize_buy_sell v)) = _normalize_buy_sell v := by
  have key : ∀ s : String,
      _normalize_buy_sell (optVal (nbsToken (pyLower (pyStrip s))))
        = nbsToken (pyLower (pyStrip s)) := by
    intro s
    by_cases h0 : pyLower (pyStrip s) = ""
    · rw [h0]; rfl
    · by_cases h1 : pyLower (pyStrip s) ∈ buy_tokens
      · have e : nbsToken (pyLower (pyStrip s)) = some "buy" := by
          unfold nbsToken; rw [if_neg h0, if_pos h1]
        rw [e]; decide
      · by_cases h2 : pyLower (pyStrip s) ∈ sell_tokens
        · have e : nbsToken (pyLower (pyStrip s)) = some "sell" := by
            unfold nbsToken; rw [if_neg h0, if_neg h1, if_pos h2]
          rw [e]; decide
        · have e : nbsToken (pyLower (pyStrip s)) = some (pyLower (pyStrip s)) := by
            unfold nbsToken; rw [if_neg h0, if_neg h1, if_neg h2]
          rw [e]
          show nbsToken (pyLower (pyStrip (pyLower (pyStrip s)))) = some (pyLower (pyStrip s))
          rw [token_stable]
          unfold nbsToken; rw [if_neg h0, if_neg h1, if_neg h2]
  cases v with
  | vnull => rfl
  | vstr s => exact key s
  | vint n => exact key (toString n)

/-! ## Record plumbing lemmas -/

theorem sourceVal_setLlm (r : Record) (f g : Field) (v : Val) :
    sourceVal (setLlm r f v) g = sourceVal r g := by
  cases f <;> cases g <;> rfl

theorem llmVal_setLlm_self (r : Record) (f : Field) (v : Val) :
    llmVal (setLlm r f v) f = v := by
  cases f <;> rfl

theorem llmVal_setLlm_ne (r : Record) (f g : Field) (v : Val) (h : f ≠ g) :
    llmVal (setLlm r f v) g = llmVal r g := by
  cases f <;> cases g <;> first | rfl | exact absurd rfl h

theorem sourceVal_validateRecord (r : Record) (f : Field) :
    sourceVal (validateRecord r) f = sourceVal r f := by
  cases f <;> rfl

theorem llmVal_validateRecord_ne (r : Record) (f : Field) (h : f ≠ Field.buy_sell) :
    llmVal (validateRecord r) f = llmVal r f := by
  cases f <;> first | rfl | exact absurd rfl h

theorem llmVal_validateRecord_bs (r : Record) :
    llmVal (validateRecord r) Field.buy_sell
      = optVal (_normalize_buy_sell (llmVal r Field.buy_sell)) := rfl

/-- The verdict a validation pass stores for field `f`, expressed through the
record's pre-pass values (for `buy_sell` this uses that re-normalizing the
just-normalized extraction changes nothing). -/
theorem validVal_validateRecord (r : Record) (f : Field) :
    validVal (validateRecord r) f
      = mkStatus (normField f (sourceVal r f)) (normField f (llmVal r f)) := by
  cases f
  case buy_sell =>
    show mkStatus (_normalize_buy_sell r.buy_sell)
        (_normalize_buy_sell (optVal (_normalize_buy_sell r.buy_sell_LLM)))
      = mkStatus (_normalize_buy_sell r.buy_sell) (_normalize_buy_sell r.buy_sell_LLM)
    rw [nbs_fix]
  all_goals rfl

theorem mkStatus_matched_iff (left right : Option String) :
    mkStatus left right = Val.vstr "matched" ↔ ∃ s, left = some s ∧ right = some s := by
  constructor
  · intro h
    by_cases hc : left ≠ none ∧ right ≠ none ∧ left = right
    · obtain ⟨h1, _, h3⟩ := hc
      cases left with
      | none => exact absurd rfl h1
      | some a => exact ⟨a, rfl, h3 ▸ rfl⟩
    · unfold mkStatus at h
      rw [if_neg hc] at h
      exact absurd h (by decide)
  · rintro ⟨s, rfl, rfl⟩
    unfold mkStatus
    rw [if_pos ⟨by simp, by simp, rfl⟩]

theorem mkStatus_total (left right : Option String) :
    mkStatus left right = Val.vstr "matched" ∨ mkStatus left right = Val.vstr "unmatched" := by
  unfold mkStatus
  split
  · exact Or.inl rfl
  · exact Or.inr rfl

/-- Positional view of a validation pass. -/
theorem uvs_getElem (store : List Record) (i : Nat) :
    (update_validation_statuses store)[i]? = (store[i]?).map validateRecord := by
  unfold update_validation_statuses
  rw [List.getElem?_map, List.getElem?_map, Option.map_map]
  rfl

/-! ## Claims about the validation pass -/

/-- Claim C2, counterexample: a validation pass is not free of side effects on
extracted values — it rewrites `buy_sell_LLM` in place, here from `"BUY"` to
`"buy"`. -/
theorem C2_counterexample :
    ¬ ((update_validation_statuses [rBuyUpper])[0]?).map (fun r => llmVal r Field.buy_sell)
        = some (llmVal rBuyUpper Field.buy_sell) := by decide

/-- Claim C2, amended: a validation pass leaves every record's source values
unchanged and the extracted values of the five generic fields unchanged, but
it overwrites each record's `buy_sell` extracted value with its side-normalized
form (in addition to overwriting the per-field validation statuses). -/
theorem C2_frame_amended (store : List Record) (i : Nat) (f : Field) :
    ((update_validation_statuses store)[i]?).map (fun r => sourceVal r f)
        = (store[i]?).map (fun r => sourceVal r f)
    ∧ (f ≠ Field.buy_sell →
        ((update_validation_statuses store)[i]?).map (fun r => llmVal r f)
          = (store[i]?).map (fun r => llmVal r f))
    ∧ ((update_validation_statuses store)[i]?).map (fun r => llmVal r Field.buy_sell)
        = (store[i]?).map (fun r => optVal (_normalize_buy_sell (llmVal r Field.buy_sell))) := by
  rw [uvs_getElem]
  cases hs : store[i]? with
  | none => exact ⟨rfl, fun _ => rfl, rfl⟩
  | some r =>
    refine ⟨congrArg some (sourceVal_validateRecord r f),
            fun hf => congrArg some (llmVal_validateRecord_ne r f hf),
            congrArg some (llmVal_validateRecord_bs r)⟩

/-- Claim C2, witness for the amended frame property. -/
theorem C2_frame_witness :
    ((update_validation_statuses [rUSD])[0]?).map (fun r => llmVal r Field.currency)
      = ([rUSD][0]?).map (fun r => llmVal r Field.currency) :=
  (C2_frame_amended [rUSD] 0 Field.currency).2.1 (by decide)

/-- Claim C3: after a validation pass, the stored verdict for a record and
field is `matched` exactly when both normalized values are present (`some`)
and equal as strings, and otherwise it is `unmatched`. -/
theorem C3_verdict (store : List Record) (i : Nat) (f : Field) (r r2 : Record)
    (hr : store[i]? = some r)
    (hr2 : (update_validation_statuses store)[i]? = some r2) :
    (validVal r2 f = Val.vstr "matched" ↔
        ∃ s, normField f (sourceVal r f) = some s ∧ normField f (llmVal r f) = some s)
    ∧ (validVal r2 f = Val.vstr "matched" ∨ validVal r2 f = Val.vstr "unmatched") := by
  have h := uvs_getElem store i
  rw [hr, hr2] at h
  have hr2e : r2 = validateRecord r := by
    simpa using h
  subst hr2e
  rw [validVal_validateRecord]
  exact ⟨mkStatus_matched_iff _ _, mkStatus_total _ _⟩

/-- Claim C3, witness: a record whose currency source and extraction both
normalize to `"USD"` is `matched`. -/
theorem C3_verdict_witness :
    (validVal (validateRecord rUSD) Field.currency = Val.vstr "matched" ↔
        ∃ s, normField Field.currency (sourceVal rUSD Field.currency) = some s
          ∧ normField Field.currency (llmVal rUSD Field.currency) = some s)
    ∧ (validVal (validateRecord rUSD) Field.currency = Val.vstr "matched"
        ∨ validVal (validateRecord rUSD) Field.currency = Val.vstr "unmatched") :=
  C3_verdict [rUSD] 0 Field.currency rUSD (validateRecord rUSD) rfl rfl

/-- Claim C4, counterexample: `_normalize` does not send the empty string to
the absent marker (`_normalize` of `NULL`); it sends it to `some ""`, the same
normal form as the distinct whitespace-only value `" "`. -/
theorem C4_counterexample :
    _normalize (Val.vstr "") ≠ _normalize Val.vnull
    ∧ _normalize (Val.vstr "") = _normalize (Val.vstr " ")
    ∧ Val.vstr "" ≠ Val.vstr " " := by decide

/-- Claim C4, amended: only `NULL` normalizes to the absent marker `none`;
every string value — the empty string included — normalizes to a present
value, its stripped text, so empty and whitespace-only values share the
present normal form `some ""` instead of being absent. -/
theorem C4_normalize_amended (s : String) (v : Val) :
    _normalize (Val.vstr s) = some (pyStrip s)
    ∧ (_normalize v = none ↔ v = Val.vnull) := by
  refine ⟨rfl, ?_⟩
  cases v <;> simp [_normalize]

/-- Claim C8: the side normalizer maps the buy synonyms (after strip and
lower-case) to `"buy"`, the sell synonyms to `"sell"`, passes any other
non-empty token through stripped and lower-cased, and sends `NULL` and
empty/whitespace-only strings to the absent marker. -/
theorem C8_side_normalizer (s : String) :
    (pyLower (pyStrip s) ∈ buy_tokens → _normalize_buy_sell (Val.vstr s) = some "buy")
    ∧ (pyLower (pyStrip s) ∈ sell_tokens → _normalize_buy_sell (Val.vstr s) = some "sell")
    ∧ (pyLower (pyStrip s) ≠ "" → pyLower (pyStrip s) ∉ buy_tokens →
        pyLower (pyStrip s) ∉ sell_tokens →
        _normalize_buy_sell (Val.vstr s) = some (pyLower (pyStrip s)))
    ∧ (pyLower (pyStrip s) = "" → _normalize_buy_sell (Val.vstr s) = none)
    ∧ _normalize_buy_sell Val.vnull = none
    ∧ _normalize_buy_sell (Val.vstr "BUY") = some "buy"
    ∧ _normalize_buy_sell (Val.vstr "b") = some "buy"
    ∧ _normalize_buy_sell (Val.vstr "purchase") = some "buy"
    ∧ _normalize_buy_sell (Val.vstr "") = none := by
  refine ⟨?_, ?_, ?_, ?_, rfl, by decide, by decide, by decide, by decide⟩
  · intro h
    have h0 : pyLower (pyStrip s) ≠ "" := by
      intro e
      rw [e] at h
      exact absurd h (by decide)
    show nbsToken (pyLower (pyStrip s)) = some "buy"
    unfold nbsToken
    rw [if_neg h0, if_pos h]
  · intro h
    have h0 : pyLower (pyStrip s) ≠ "" := by
      intro e
      rw [e] at h
      exact absurd h (by decide)
    have h1 : pyLower (pyStrip s) ∉ buy_tokens := by
      simp only [sell_tokens, List.mem_cons, List.not_mem_nil, or_false] at h
      rcases h with h | h | h | h <;> rw [h] <;> decide
    show nbsToken (pyLower (pyStrip s)) = some "sell"
    unfold nbsToken
    rw [if_neg h0, if_neg h1, if_pos h]
  · intro h0 h1 h2
    show nbsToken (pyLower (pyStrip s)) = some (pyLower (pyStrip s))
    unfold nbsToken
    rw [if_neg h0, if_neg h1, if_neg h2]
  · intro h0
    show nbsToken (pyLower (pyStrip s)) = none
    rw [h0]
    rfl

/-- Claim C8, witness: a padded mixed-case sell synonym normalizes to
`"sell"`. -/
theorem C8_side_normalizer_witness :
    _normalize_buy_sell (Val.vstr " SeLL ") = some "sell" :=
  (C8_side_normalizer " SeLL ").2.1 (by decide)

/-- Claim C9: after a validation pass every record's validation status for
every field is `matched` or `unmatched`, never anything else. -/
theorem C9_validation_total (store : List Record) (r : Record) (f : Field)
    (h : r ∈ update_validation_statuses store) :
    validVal r f = Val.vstr "matched" ∨ validVal r f = Val.vstr "unmatched" := by
  unfold update_validation_statuses at h
  rw [List.mem_map] at h
  obtain ⟨r1, hr1, rfl⟩ := h
  rw [List.mem_map] at hr1
  obtain ⟨r0, _, rfl⟩ := hr1
  rw [show computeStatuses (normalizeBuySellPhase r0) = validateRecord r0 from rfl,
    validVal_validateRecord]
  exact mkStatus_total _ _

/-- Claim C9, witness: totality on a concrete all-`NULL` record. -/
theorem C9_validation_total_witness :
    validVal (validateRecord rBlank) Field.settlement_date = Val.vstr "matched"
      ∨ validVal (validateRecord rBlank) Field.settlement_date = Val.vstr "unmatched" :=
  C9_validation_total [rBlank] (validateRecord rBlank) Field.settlement_date (by decide)

/-- Claim C10: `_normalize_buy_sell` is idempotent (re-applying it to its own
stored output returns that output), and consequently a repeated validation
pass stores the same `buy_sell` verdicts as the first pass. -/
theorem C10_idempotent (v : Val) (store : List Record) (i : Nat) :
    _normalize_buy_sell (optVal (_normalize_buy_sell v)) = _normalize_buy_sell v
    ∧ ((update_validation_statuses (update_validation_statuses store))[i]?).map
        (fun r => validVal r Field.buy_sell)
      = ((update_validation_statuses store)[i]?).map (fun r => validVal r Field.buy_sell) := by
  refine ⟨nbs_fix v, ?_⟩
  rw [uvs_getElem, uvs_getElem]
  cases store[i]? with
  | none => rfl
  | some r =>
    show some (validVal (validateRecord (validateRecord r)) Field.buy_sell)
      = some (validVal (validateRecord r) Field.buy_sell)
    rw [validVal_validateRecord, validVal_validateRecord, sourceVal_validateRecord]
    rw [show normField Field.buy_sell (llmVal (validateRecord r) Field.buy_sell)
        = _normalize_buy_sell (optVal (_normalize_buy_sell (llmVal r Field.buy_sell))) from
      congrArg _normalize_buy_sell (llmVal_validateRecord_bs r)]
    rw [nbs_fix]
    rfl

/-! ## Record-processor lemmas -/

/-- The field loop never writes a source column. -/
theorem processFields_source (g : Field → Resp) (fs : List Field) :
    ∀ (r r2 : Record) (n : Nat), processFields g r fs = Except.ok (r2, n) →
      ∀ f, sourceVal r2 f = sourceVal r f := by
  induction fs with
  | nil =>
    intro r r2 n h f
    simp only [processFields, Except.ok.injEq, Prod.mk.injEq] at h
    obtain ⟨rfl, -⟩ := h
    rfl
  | cons f0 fs ih =>
    intro r r2 n h f
    simp only [processFields] at h
    split at h
    · exact ih r r2 n h f
    · split at h
      · exact absurd h (by simp)
      · rename_i v hev
        split at h
        · exact absurd h (by simp)
        · rename_i r3 m hrec
          simp only [Except.ok.injEq, Prod.mk.injEq] at h
          obtain ⟨rfl, -⟩ := h
          rw [ih _ _ _ hrec f, sourceVal_setLlm]

/-- The field loop never rewrites an extraction column that already holds a
value accepted by `_has_value`. -/
theorem processFields_llm (g : Field → Resp) (fs : List Field) :
    ∀ (r r2 : Record) (n : Nat), processFields g r fs = Except.ok (r2, n) →
      ∀ f, _has_value (llmVal r f) = true → llmVal r2 f = llmVal r f := by
  induction fs with
  | nil =>
    intro r r2 n h f _
    simp only [processFields, Except.ok.injEq, Prod.mk.injEq] at h
    obtain ⟨rfl, -⟩ := h
    rfl
  | cons f0 fs ih =>
    intro r r2 n h f hv
    simp only [processFields] at h
    split at h
    · exact ih r r2 n h f hv
    · rename_i hcond
      split at h
      · exact absurd h (by simp)
      · rename_i v hev
        split at h
        · exact absurd h (by simp)
        · rename_i r3 m hrec
          simp only [Except.ok.injEq, Prod.mk.injEq] at h
          obtain ⟨rfl, -⟩ := h
          by_cases hf : f0 = f
          · subst hf
            simp only [Bool.or_eq_true, Bool.not_eq_eq_eq_not, Bool.not_true] at hcond
            rw [hv] at hcond
            exact absurd (Or.inr rfl) hcond
          · have hset : llmVal (setLlm r f0 v) f = llmVal r f := llmVal_setLlm_ne r f0 f v hf
            rw [ih _ _ _ hrec f (by rw [hset]; exact hv), hset]

/-- After a successful field loop whose service answers all carry accepted
values, every visited field is settled: source absent or extraction
populated. -/
theorem processFields_settled (g : Field → Resp)
    (hg : ∀ f, ∃ v, _extract_column_value (g f) (outputKey f) = Except.ok v
      ∧ _has_value v = true) (fs : List Field) :
    ∀ (r r2 : Record) (n : Nat), processFields g r fs = Except.ok (r2, n) →
      ∀ f ∈ fs, _has_value (sourceVal r2 f) = false ∨ _has_value (llmVal r2 f) = true := by
  induction fs with
  | nil =>
    intro r r2 n h f hf
    exact absurd hf (List.not_mem_nil f)
  | cons f0 fs ih =>
    intro r r2 n h f hf
    have hmem := List.mem_cons.mp hf
    simp only [processFields] at h
    split at h
    · rename_i hcond
      rcases hmem with rfl | hfs
      · simp only [Bool.or_eq_true, Bool.not_eq_eq_eq_not, Bool.not_true] at hcond
        rcases hcond with h1 | h1
        · exact Or.inl (by rw [processFields_source g fs r r2 n h f, h1])
        · exact Or.inr (by rw [processFields_llm g fs r r2 n h f h1]; exact h1)
      · exact ih r r2 n h f hfs
    · split at h
      · exact absurd h (by simp)
      · rename_i v hev
        split at h
        · exact absurd h (by simp)
        · rename_i r3 m hrec
          simp only [Except.ok.injEq, Prod.mk.injEq] at h
          obtain ⟨rfl, -⟩ := h
          obtain ⟨w, hw1, hw2⟩ := hg f0
          rw [hw1] at hev
          have hv2 : _has_value v = true := by
            have hwv : w = v := by simpa using hev
            rw [← hwv]
            exact hw2
          rcases hmem with rfl | hfs
          · have hset : llmVal (setLlm r f v) f = v := llmVal_setLlm_self r f v
            have hkeep : _has_value (llmVal (setLlm r f v) f) = true := by
              rw [hset]
              exact hv2
            exact Or.inr (by rw [processFields_llm g fs _ _ _ hrec f hkeep]; exact hkeep)
          · exact ih _ _ _ hrec f hfs

/-- A field loop over settled fields calls nothing and changes nothing. -/
theorem processFields_skip (g : Field → Resp) (fs : List Field) :
    ∀ r : Record, (∀ f ∈ fs, _has_value (sourceVal r f) = false
        ∨ _has_value (llmVal r f) = true) →
      processFields g r fs = Except.ok (r, 0) := by
  induction fs with
  | nil => intro r _; rfl
  | cons f0 fs ih =>
    intro r h
    have hcond : (!_has_value (sourceVal r f0) || _has_value (llmVal r f0)) = true := by
      rcases h f0 (List.mem_cons_self f0 fs) with h1 | h1 <;> simp [h1]
    simp only [processFields, hcond, if_true]
    exact ih r fun f hf => h f (List.mem_cons_of_mem f0 hf)

/-- Positional view of a successful run: every output row comes from a
successful field loop over its input row. -/
theorem processRecords_get (o : Oracle) (rs : List Record) :
    ∀ (k : Nat) (rs2 : List Record) (n : Nat), processRecords o k rs = Except.ok (rs2, n) →
      ∀ (i : Nat) (r : Record), rs[i]? = some r →
        ∃ r2 m j, rs2[i]? = some r2 ∧ processFields (o j) r fieldOrder = Except.ok (r2, m) := by
  induction rs with
  | nil =>
    intro k rs2 n h i r hr
    exact absurd hr (by simp)
  | cons r0 rs ih =>
    intro k rs2 n h i r hr
    simp only [processRecords] at h
    split at h
    · exact absurd h (by simp)
    · rename_i r2 n0 hpf
      split at h
      · exact absurd h (by simp)
      · rename_i rs3 m0 hrec
        simp only [Except.ok.injEq, Prod.mk.injEq] at h
        obtain ⟨rfl, -⟩ := h
        cases i with
        | zero =>
          obtain rfl : r0 = r := by simpa using hr
          exact ⟨r2, n0, k, by simp, hpf⟩
        | succ i =>
          simp only [List.getElem?_cons_succ] at hr ⊢
          exact ih (k + 1) rs3 m0 hrec i r hr

/-- Membership view of a successful run. -/
theorem processRecords_mem (o : Oracle) (rs : List Record) :
    ∀ (k : Nat) (rs2 : List Record) (n : Nat), processRecords o k rs = Except.ok (rs2, n) →
      ∀ r2 ∈ rs2, ∃ j r m, processFields (o j) r fieldOrder = Except.ok (r2, m) := by
  induction rs with
  | nil =>
    intro k rs2 n h r2 hr2
    simp only [processRecords, Except.ok.injEq, Prod.mk.injEq] at h
    obtain ⟨rfl, -⟩ := h
    exact absurd hr2 (List.not_mem_nil r2)
  | cons r0 rs ih =>
    intro k rs2 n h r2 hr2
    simp only [processRecords] at h
    split at h
    · exact absurd h (by simp)
    · rename_i r3 n0 hpf
      split at h
      · exact absurd h (by simp)
      · rename_i rs3 m0 hrec
        simp only [Except.ok.injEq, Prod.mk.injEq] at h
        obtain ⟨rfl, -⟩ := h
        rcases List.mem_cons.mp hr2 with rfl | hmem
        · exact ⟨k, r0, n0, hpf⟩
        · exact ih (k + 1) rs3 m0 hrec r2 hmem

/-- A run over a fully settled store succeeds with zero updates and an
unchanged store, for any service. -/
theorem processRecords_skip (o : Oracle) (rs : List Record)
    (h : ∀ r ∈ rs, ∀ f ∈ fieldOrder, _has_value (sourceVal r f) = false
      ∨ _has_value (llmVal r f) = true) :
    ∀ k : Nat, processRecords o k rs = Except.ok (rs, 0) := by
  induction rs with
  | nil => intro k; rfl
  | cons r0 rs ih =>
    intro k
    have h0 := processFields_skip (o k) fieldOrder r0 (h r0 (List.mem_cons_self r0 rs))
    have hrec := ih (fun r hr => h r (List.mem_cons_of_mem r0 hr)) (k + 1)
    simp only [processRecords, h0, hrec]

/-! ## Claims about the record processor and extraction -/

/-- A row whose only present value is a currency source. -/
def rCurOnly : Record := { currency := Val.vstr "USD" }

/-- The store produced by running `oGood` over `[rTwoSrc]`. -/
def s1C5 : List Record :=
  [{ rTwoSrc with currency_LLM := Val.vstr "X", settlement_amount_LLM := Val.vstr "X" }]

/-- Claim C1: evaluation at the failing input.  Both rows have two present
sources; the service answers the first currency call and returns a non-JSON
body for the settlement-amount call.  The run does not recover: the
`json.loads` exception escapes `process_new_raw_rows` (no per-pair handler
exists), the second row and the remaining fields are never processed, and
since `conn.commit()` is never reached the already-made currency update of
the first row is rolled back — the claimed recovery, continuation, and
retention of other pairs' updates all fail. -/
theorem C1_failure_aborts :
    process_new_raw_rows oCurrencyOnly [rTwoSrc, rTwoSrc]
      = Except.error ExtractErr.jsonDecodeError
    ∧ runStore oCurrencyOnly [rTwoSrc, rTwoSrc] = [rTwoSrc, rTwoSrc] := by decide

/-- Claim C5, counterexample: a record-field pair whose extraction returned a
semantic null is re-attempted on every run.  The first run succeeds, updates
one field (writing `NULL`), and leaves the store unchanged, so the second run
— with no new source values — again returns 1, not 0, and again calls the
service. -/
theorem C5_counterexample :
    runStore oNullAnswer [rCurOnly] = [rCurOnly]
    ∧ process_new_raw_rows oNullAnswer (runStore oNullAnswer [rCurOnly])
        = Except.ok ([rCurOnly], 1)
    ∧ ¬ process_new_raw_rows oNullAnswer (runStore oNullAnswer [rCurOnly])
        = Except.ok (runStore oNullAnswer [rCurOnly], 0) := by decide

/-- Claim C5, amended: if every service answer of the first run carries a
value that `_has_value` accepts (non-null, non-blank), then a second run on
the resulting store updates exactly 0 fields, makes no extraction call (the
second run's result does not depend on its service), and leaves the store
unchanged.  Pairs whose extraction returned null or a blank string are
re-attempted instead. -/
theorem C5_second_run_amended (o o2 : Oracle) (store s1 : List Record) (n : Nat)
    (hgood : ∀ i f, ∃ v, _extract_column_value (o i f) (outputKey f) = Except.ok v
      ∧ _has_value v = true)
    (h1 : process_new_raw_rows o store = Except.ok (s1, n)) :
    process_new_raw_rows o2 s1 = Except.ok (s1, 0) := by
  apply processRecords_skip
  intro r hr f hf
  obtain ⟨j, r0, m, hpf⟩ := processRecords_mem o store 0 s1 n h1 r hr
  exact processFields_settled (o j) (hgood j) fieldOrder r0 r m hpf f hf

/-- Claim C5, witness: after a first run whose answers were all `"X"`, a
second run — even against an always-failing service — updates 0 fields. -/
theorem C5_second_run_witness :
    process_new_raw_rows oAllFail s1C5 = Except.ok (s1C5, 0) :=
  C5_second_run_amended oGood oAllFail [rTwoSrc] s1C5 2
    (fun _ f => ⟨Val.vstr "X", by cases f <;> exact ⟨rfl, rfl⟩⟩) (by decide)

/-- Claim C6, counterexample: a validation run rewrites a non-null
`buy_sell_LLM` (`"BUY"` becomes `"buy"`), and an extraction run rewrites a
non-null but blank extracted value (`" "` is re-extracted and becomes
`"y"`). -/
theorem C6_counterexample :
    (llmVal rBuyUpper Field.buy_sell ≠ Val.vnull
      ∧ ¬ ((update_validation_statuses [rBuyUpper])[0]?).map
            (fun r => llmVal r Field.buy_sell)
          = some (llmVal rBuyUpper Field.buy_sell))
    ∧ (llmVal rBlankLLM Field.currency ≠ Val.vnull
      ∧ ¬ ((runStore oY [rBlankLLM])[0]?).map (fun r => llmVal r Field.currency)
          = some (llmVal rBlankLLM Field.currency)) := by decide

/-- Claim C6, amended: once a record-field pair's extracted value passes
`_has_value` (non-null and non-blank), no extraction run changes it; a
validation run changes no extracted value except `buy_sell`, whose extracted
value it overwrites with its side-normalized form. -/
theorem C6_monotonic_amended (o : Oracle) (store : List Record) (i : Nat) (f : Field)
    (r : Record) (hr : store[i]? = some r) (hv : _has_value (llmVal r f) = true) :
    ((runStore o store)[i]?).map (fun x => llmVal x f) = some (llmVal r f)
    ∧ (f ≠ Field.buy_sell →
        ((update_validation_statuses store)[i]?).map (fun x => llmVal x f)
          = some (llmVal r f))
    ∧ ((update_validation_statuses store)[i]?).map (fun x => llmVal x Field.buy_sell)
        = some (optVal (_normalize_buy_sell (llmVal r Field.buy_sell))) := by
  refine ⟨?_, fun hf => ?_, ?_⟩
  · rcases hp : process_new_raw_rows o store with e | sn
    · simp only [runStore, hp, hr]
      rfl
    · obtain ⟨s2, n⟩ := sn
      obtain ⟨r2, m, j, hr2, hpf⟩ := processRecords_get o store 0 s2 n hp i r hr
      simp only [runStore, hp, hr2, Option.map_some]
      exact congrArg some (processFields_llm (o j) fieldOrder r r2 m hpf f hv)
  · rw [uvs_getElem, hr]
    exact congrArg some (llmVal_validateRecord_ne r f hf)
  · rw [uvs_getElem, hr]
    exact congrArg some (llmVal_validateRecord_bs r)

/-- Claim C6, witness: a populated currency extraction survives an extraction
run untouched. -/
theorem C6_monotonic_witness :
    ((runStore oY [rUSD])[0]?).map (fun x => llmVal x Field.currency)
      = some (llmVal rUSD Field.currency) :=
  (C6_monotonic_amended oY [rUSD] 0 Field.currency rUSD rfl (by decide)).1

/-- Claim C7, counterexample: a response object without the output key yields
the very same successful null as a response carrying an explicit null — the
missing key is not surfaced as a failure. -/
theorem C7_counterexample :
    _extract_column_value (Resp.obj []) "currency"
      = _extract_column_value (Resp.obj [("currency", Val.vnull)]) "currency"
    ∧ _extract_column_value (Resp.obj []) "currency" = Except.ok Val.vnull := by decide

/-- Claim C7, amended: transport failures, non-JSON bodies, and non-object
JSON are surfaced as distinct extraction errors, but a missing output key is
returned as a successful `NULL` (indistinguishable from a legitimate semantic
null), and whatever value sits under the key is returned as a success without
any client-side schema check. -/
theorem C7_extract_amended (fields : List (String × Val)) (key : String) (v : Val) :
    _extract_column_value Resp.transportFail key = Except.error ExtractErr.transportError
    ∧ _extract_column_value Resp.notJson key = Except.error ExtractErr.jsonDecodeError
    ∧ _extract_column_value Resp.nonObjJson key = Except.error ExtractErr.attributeError
    ∧ (List.lookup key fields = none →
        _extract_column_value (Resp.obj fields) key = Except.ok Val.vnull)
    ∧ _extract_column_value (Resp.obj ((key, v) :: fields)) key = Except.ok v := by
  refine ⟨rfl, rfl, rfl, fun h => ?_, ?_⟩
  · show Except.ok ((List.lookup key fields).getD Val.vnull) = Except.ok Val.vnull
    rw [h]
    rfl
  · show Except.ok ((List.lookup key ((key, v) :: fields)).getD Val.vnull) = Except.ok v
    simp [List.lookup]

/-- Claim C7, witness: the empty response object yields a successful null. -/
theorem C7_extract_witness :
    _extract_column_value (Resp.obj []) "currency" = Except.ok Val.vnull :=
  (C7_extract_amended [] "currency" Val.vnull).2.2.2.1 rfl

end Confirm
